import Mathlib

/-
Verification of seaice/core/profile.py (sea-ice profile discretization toolbox).

The Python module operates on pandas DataFrames; we embed the claim-relevant
operations shallowly:
  * depth coordinates and measured values are exact rationals; a NaN cell is
    modelled as `none : Option ℚ` (the code only ever tests NaN-ness and
    propagates NaN through arithmetic; np.nansum treats NaN as 0 and returns
    0.0 on an all-NaN input, which is modelled explicitly in `nanAdd`);
  * a profile is a list of rows; the embedding models a single variable group
    with a single resampled property column, which is the shape every claim
    exercises (the Python loop over `profile.variable.unique()` processes each
    group independently, and the numpy arithmetic is per-column);
  * operations that raise in Python return `Except.error`.
-/

set_option autoImplicit false

namespace SeaIce

/-- Tolerance constant `TOL = 1e-6` from profile.py line 27. -/
def TOL : ℚ := 1 / 1000000

/-- One source section row of the step (salinity-like) branch: the columns
`[y_low, y_sup] + _variables` extracted at profile.py lines 311-320, with a
single property column whose NaN cells are `none`. -/
structure Sec where
  y_low : ℚ
  y_sup : ℚ
  value : Option ℚ
deriving DecidableEq, Repr

/-- One output row of the step branch (profile.py lines 440-448): bin bounds,
midpoint, discretized value and coverage weight `w_<variable>`. -/
structure OutRow where
  y_low : ℚ
  y_mid : ℚ
  y_sup : ℚ
  value : Option ℚ
  w : ℚ
deriving DecidableEq, Repr

/-- `np.nansum([a, b], axis=0)` on two scalars: NaN counts as 0 and an
all-NaN input sums to 0.0, so the result is never NaN. -/
def nanAdd (a b : Option ℚ) : Option ℚ :=
  some (a.getD 0 + b.getD 0)

/-- Accumulator of the per-bin loop (profile.py lines 382-384): `S` is the
value-length sum (initialized to `[np.nan]`), `L` the valid-covered length
(initialized to zeros).  The `L_nan` accumulator is dead code for the output
and is not modelled. -/
structure Acc where
  S : Option ℚ
  L : ℚ
deriving DecidableEq, Repr

/-- One accumulation step (profile.py lines 387-391 and analogues):
`S_temp = value * l; S = np.nansum([S, S_temp]); L += l * ~np.isnan(S_temp)`. -/
def contrib (acc : Acc) (v : Option ℚ) (l : ℚ) : Acc :=
  { S := nanAdd acc.S (v.map (fun x => x * l)),
    L := acc.L + if v.isSome then l else 0 }

/-- The overlap-selection mask of profile.py lines 371-374: a source section
is selected for target bin `[b0, b1]` when it straddles `b0`, lies inside the
bin, or straddles `b1`; `np.unique` of the concatenated index sets is the
order-preserving filter of the (index-sorted) section list. -/
def binOverlap (yx : List Sec) (b0 b1 : ℚ) : List Sec :=
  yx.filter (fun s =>
    (s.y_low - b0 < -TOL ∧ b0 - s.y_sup < -TOL) ∨
    (b0 - s.y_low ≤ TOL ∧ s.y_sup - b1 ≤ TOL) ∨
    (s.y_low - b1 < -TOL ∧ b1 - s.y_sup < -TOL))

/-- The `while` loop of profile.py lines 395-402: consume fully-contained
sections while at least two selected sections remain (`a_ii < a.shape[0]-1`)
and the current one ends before `b1 - TOL`; the loop guard
`ii_bin+1 <= y_bins.shape[0]-1` is identically true for every index produced
by `range(len(y_bins)-1)` and is omitted. -/
def phase2 (b1 : ℚ) (acc : Acc) : List Sec → Acc × List Sec
  | s1 :: s2 :: rest =>
    if s1.y_sup - b1 < -TOL then
      phase2 b1 (contrib acc s1.value (s1.y_sup - s1.y_low)) (s2 :: rest)
    else (acc, s1 :: s2 :: rest)
  | l => (acc, l)

/-- The trailing-section step of profile.py lines 405-419: if a selected
section remains, it contributes its clipped length `b1 - y_low` when it
reaches past `b1 - TOL`, its full length when it ends before `b1 - TOL`, and
nothing in the remaining tolerance sliver. -/
def phase3 (b1 : ℚ) (acc : Acc) : List Sec → Acc
  | [] => acc
  | s :: _ =>
    if s.y_sup - b1 > -TOL then contrib acc s.value (b1 - s.y_low)
    else if s.y_sup - b1 < -TOL then contrib acc s.value (s.y_sup - s.y_low)
    else acc

/-- The whole per-bin accumulation (profile.py lines 382-419), starting with
the leading straddling section (lines 386-394) when present. -/
def accumBin (b0 b1 : ℚ) : List Sec → Acc
  | [] => ⟨none, 0⟩
  | s :: rest =>
    let start : Acc × List Sec :=
      if s.y_low - b0 < -TOL then
        (contrib ⟨none, 0⟩ s.value (s.y_sup - b0), rest)
      else (⟨none, 0⟩, s :: rest)
    let mid := phase2 b1 start.1 start.2
    phase3 b1 mid.1 mid.2

/-- A bin emission of the step branch: the two appended `y_step` boundary
values, the discretized value `S/L` and the weight `w`. -/
structure Emit where
  yl : ℚ
  ys : ℚ
  value : Option ℚ
  w : ℚ
deriving DecidableEq, Repr

/-- Per-target-bin computation of profile.py lines 370-435: `none` when no
source section overlaps the bin (`a.size == 0`, line 381, in which case the
bin is skipped), otherwise the emitted boundaries (lines 425-433, with the
`fill_extremity` clipping), value `S/L` (`L[L==0] = np.nan; S = S/L`, lines
422-423) and weight `w = L/(b1-b0)` (line 421). -/
def binResult (yx : List Sec) (fe : Bool) (b0 b1 : ℚ) : Option Emit :=
  match binOverlap yx b0 b1 with
  | [] => none
  | s0 :: rest =>
    let acc := accumBin b0 b1 (s0 :: rest)
    let w := acc.L / (b1 - b0)
    let v : Option ℚ :=
      match acc.S with
      | none => none
      | some sv => if acc.L = 0 then none else some (sv / acc.L)
    let sl := (s0 :: rest).getLast (List.cons_ne_nil s0 rest)
    let bounds : ℚ × ℚ :=
      if s0.y_low - b0 > TOL ∧ fe = false then (s0.y_low, b1)
      else if sl.y_sup - b1 < -TOL ∧ fe = false then (b0, sl.y_sup)
      else (b0, b1)
    some ⟨bounds.1, bounds.2, v, w⟩

/-- Consecutive pairs: the bins `(y_bins[i], y_bins[i+1])` iterated by
`for ii_bin in range(y_bins.__len__()-1)` (profile.py line 370). -/
def pairsOf (l : List ℚ) : List (ℚ × ℚ) :=
  l.zip l.tail

/-- Insertion of one element into a sorted rational list. -/
def insertSorted (x : ℚ) : List ℚ → List ℚ
  | [] => [x]
  | y :: ys => if x ≤ y then x :: y :: ys else y :: insertSorted x ys

/-- Ascending sort of a rational list. -/
def sortQ (l : List ℚ) : List ℚ :=
  l.foldr insertSorted []

/-- Removal of adjacent duplicates of a sorted list; composed with `sortQ`
this is `np.unique` on the collected `y_step` boundary values. -/
def dedupAdj : List ℚ → List ℚ
  | [] => []
  | [x] => [x]
  | x :: y :: rest => if x = y then dedupAdj (y :: rest) else x :: dedupAdj (y :: rest)

/-- `np.unique`: sorted distinct values. -/
def uniqueQ (l : List ℚ) : List ℚ :=
  dedupAdj (sortQ l)

/-- Stable insertion of a section into a list sorted by `y_low`
(`sort_values(by='y_low')`, profile.py lines 312-316). -/
def insertSec (s : Sec) : List Sec → List Sec
  | [] => [s]
  | t :: ts => if s.y_low ≤ t.y_low then s :: t :: ts else t :: insertSec s ts

/-- Sort sections ascending by `y_low`. -/
def sortSecs (l : List Sec) : List Sec :=
  l.foldr insertSec []

/-- Gap insertion walk (profile.py lines 324-327): between consecutive source
sections whose edges differ by more than `TOL`, insert a synthetic NaN-valued
section. -/
def insertGapsGo (s : Sec) : List Sec → List Sec
  | [] => [s]
  | t :: rest =>
    if TOL < |s.y_sup - t.y_low| then
      s :: ⟨s.y_sup, t.y_low, none⟩ :: insertGapsGo t rest
    else s :: insertGapsGo t rest

/-- Gap insertion (profile.py lines 322-330).  With fewer than two source
rows the `for` loop body never runs and the final `yx_new.append(yx[row+1,:])`
reads the undefined loop variable `row`, raising `NameError`; this partiality
is made explicit as an error. -/
def insertGaps : List Sec → Except String (List Sec)
  | [] => Except.error "NameError: name row is not defined"
  | [_] => Except.error "NameError: name row is not defined"
  | s :: t :: rest => Except.ok (insertGapsGo s (t :: rest))

/-- All consecutive pairs of a list satisfy `p`. -/
def adjAll (p : ℚ → ℚ → Bool) : List ℚ → Bool
  | [] => true
  | [_] => true
  | x :: y :: rest => p x y && adjAll p (y :: rest)

/-- Direction normalization of the bin edges (profile.py lines 354-360):
reverse when `(np.diff(y_bins) < 0).all()`, otherwise leave unchanged (an
unsorted list is only logged). -/
def orientEdges (l : List ℚ) : List ℚ :=
  if adjAll (fun a b => decide (b < a)) l then l.reverse else l

/-- Direction normalization of the section array on its `y_low` column
(profile.py lines 361-367). -/
def orientSecs (l : List Sec) : List Sec :=
  if adjAll (fun a b => decide (b < a)) (l.map Sec.y_low) then l.reverse else l

/-- Output-row assembly of profile.py lines 437-448: the unique sorted set of
emitted boundary values is paired consecutively; `np.vstack` requires the
stacked arrays to have a common length, i.e. the number of emitted bins must
equal the number of unique boundaries minus one, and raises `ValueError`
otherwise. -/
def assemble (emits : List Emit) : Except String (List OutRow) :=
  let u := uniqueQ (emits.flatMap (fun e => [e.yl, e.ys]))
  if u.length - 1 = emits.length then
    Except.ok ((u.dropLast.zip u.tail).zip emits |>.map
      (fun p => ⟨p.1.1, p.1.1 + (p.1.2 - p.1.1) / 2, p.1.2, p.2.value, p.2.w⟩))
  else Except.error "ValueError: all the input array dimensions must match"

/-- The step (salinity-like) branch of `discretize_profile` for one variable
group (profile.py lines 307-448), applied to the sorted section array, with
`fill_gap=False` (the default; the `fill_gap=True` branch of lines 332-348 is
outside every claim): gap insertion, direction normalization of both the
section array and the bin edges, the per-bin loop, and row assembly. -/
def discretize_step (secs : List Sec) (y_bins : List ℚ) (fe : Bool) :
    Except String (List OutRow) := do
  let yx0 ← insertGaps secs
  let bins := orientEdges y_bins
  let yx := orientSecs yx0
  assemble ((pairsOf bins).filterMap (fun p => binResult yx fe p.1 p.2))

/-- A source point of the continuous (temperature-like) branch: the sorted
index/value pairs `yx = _profile[['y_mid'] + _variables].set_index('y_mid')`
(profile.py line 260), for the single modelled property. -/
abbrev Pt := ℚ × ℚ

/-- Stable insertion into a point list sorted by depth (`sort_index`). -/
def insertPt (p : Pt) : List Pt → List Pt
  | [] => [p]
  | q :: qs => if p.1 ≤ q.1 then p :: q :: qs else q :: insertPt p qs

/-- Sort points ascending by depth. -/
def sortPts (l : List Pt) : List Pt :=
  l.foldr insertPt []

/-- `np.interp(y, xp, fp, left=np.nan, right=np.nan)` over an ascending point
list (profile.py line 262): `none` (NaN) strictly outside `[xp[0], xp[-1]]`,
linear interpolation on the first enclosing segment inside. -/
def npInterp : List Pt → ℚ → Option ℚ
  | [], _ => none
  | [p], y => if y < p.1 then none else if p.1 < y then none else some p.2
  | p :: q :: rest, y =>
    if y < p.1 then none
    else if y ≤ q.1 then some (p.2 + (q.2 - p.2) * (y - p.1) / (q.1 - p.1))
    else npInterp (q :: rest) y

/-- The exact-match override of profile.py lines 265-266: every source depth
within `1e-6` of the target depth overwrites the interpolated value with the
source value, later (deeper) source rows overwriting earlier ones. -/
def exactMatch (src : List Pt) (y : ℚ) : Option ℚ :=
  ((src.filter (fun p => |y - p.1| < TOL)).getLast?).map Prod.snd

/-- The value placed at a target depth by the continuous branch: the
exact-match override when a source depth lies within tolerance, otherwise the
interpolation of `npInterp` (profile.py lines 262-266). -/
def contValue (src : List Pt) (y : ℚ) : Option ℚ :=
  match exactMatch src y with
  | some v => some v
  | none => npInterp src y

/-- The coverage weight of the continuous branch (profile.py line 269):
`1 if yx.index[0] - TOL <= y <= yx.index[-1] + TOL else 0`, over the sorted
source; 0 for an empty source (unreachable past the nonempty checks). -/
def contWeight (src : List Pt) (y : ℚ) : ℚ :=
  match src.head?, src.getLast? with
  | some p0, some pn => if p0.1 - TOL ≤ y ∧ y ≤ pn.1 + TOL then 1 else 0
  | _, _ => 0

/-- One output row of the continuous branch: target depth, value, weight. -/
structure CRow where
  y_mid : ℚ
  value : Option ℚ
  weight : ℚ
deriving DecidableEq, Repr

/-- Stable insertion into a `CRow` list sorted by depth. -/
def insertCRow (c : CRow) : List CRow → List CRow
  | [] => [c]
  | d :: ds => if c.y_mid ≤ d.y_mid then c :: d :: ds else d :: insertCRow c ds

/-- Sort output rows by `y_mid` (`temp.sort_values('y_mid')`, line 282). -/
def sortCRows (l : List CRow) : List CRow :=
  l.foldr insertCRow []

/-- The continuous (temperature-like) branch of `discretize_profile`
(profile.py lines 259-282) over the sorted source points: one row per target
depth with interpolated value and coverage weight, then the source extremes
appended as weight-0 anchor rows when no target depth falls within `TOL` of
them (lines 272-277), then a sort by depth.  An empty source raises
`IndexError` at `yx.index[0]`. -/
def contResample (src : List Pt) (targets : List ℚ) : Except String (List CRow) :=
  match src.head?, src.getLast? with
  | some p0, some pn =>
    let base := targets.map (fun y => CRow.mk y (contValue src y) (contWeight src y))
    let withLow :=
      if targets.any (fun y => |p0.1 - y| < TOL) then base
      else base ++ [⟨p0.1, some p0.2, 0⟩]
    let withHigh :=
      if targets.any (fun y => |pn.1 - y| < TOL) then withLow
      else withLow ++ [⟨pn.1, some pn.2, 0⟩]
    Except.ok (sortCRows withHigh)
  | _, _ => Except.error "IndexError: index 0 is out of bounds"

/-- One row of an input profile, restricted to the columns `discretize_profile`
reads for a single variable group with one resampled property: the vertical
reference tag, the three depth columns (NaN cells are `none`) and the
property value. -/
structure SRow where
  v_ref : String
  y_low : Option ℚ
  y_mid : Option ℚ
  y_sup : Option ℚ
  value : Option ℚ
deriving DecidableEq, Repr

/-- `is_continuous` (profile.py lines 636-643): continuous when the `y_low`
column is entirely null (in the row-list model a missing column and an
all-null column coincide; the claims only exercise profiles whose shape is
unambiguous). -/
def is_continuous (rows : List SRow) : Bool :=
  rows.all (fun r => r.y_low = none)

/-- Output of `discretize_profile` for one variable group: continuous-branch
rows or step-branch rows. -/
inductive DiscOut where
  | cont : List CRow → DiscOut
  | step : List OutRow → DiscOut
deriving DecidableEq, Repr

/-- Extraction of the continuous-branch source points: rows with a NaN depth
or NaN value are outside the modelled domain (the Python code would propagate
NaN through `np.interp`; no claim exercises this). -/
def getPoints : List SRow → Except String (List Pt)
  | [] => Except.ok []
  | r :: rest =>
    match r.y_mid, r.value with
    | some y, some v => (getPoints rest).map (fun l => (y, v) :: l)
    | _, _ => Except.error "unmodelled: NaN y_mid or value in continuous source"

/-- Extraction of the step-branch section rows: a NaN depth bound is outside
the modelled domain (the Python code would carry NaN bounds through the
sorting and bin arithmetic; no claim exercises this). -/
def getSecs : List SRow → Except String (List Sec)
  | [] => Except.ok []
  | r :: rest =>
    match r.y_low, r.y_sup with
    | some lo, some hi => (getSecs rest).map (fun l => Sec.mk lo hi r.value :: l)
    | _, _ => Except.error "unmodelled: NaN depth bound in step source"

/-- The section-array selection of profile.py lines 311-316: sort by the
`y_low` column; under the `bottom` reference the columns are first selected
swapped and kept swapped only when the first sorted row does not satisfy
`y_sup > y_low`. -/
def stepInput (vref : String) (secs : List Sec) : List Sec :=
  let sorted := sortSecs secs
  if vref = "bottom" then
    match sorted with
    | [] => sorted
    | s :: _ =>
      if s.y_low < s.y_sup then sorted
      else sorted.map (fun t => ⟨t.y_sup, t.y_low, t.value⟩)
  else sorted

/-- `discretize_profile(profile, y_bins, ...)` (profile.py lines 181-484) for
one variable group whose single property is resamplable, with `y_bins` given
(so `y_mid` is derived as `np.diff(y_bins)/2 + y_bins[:-1]`, line 221) and
`fill_gap=False`.  On an empty profile the code logs a warning but then
unconditionally evaluates `profile.v_ref.unique()[0]` (line 206), which
raises `IndexError`; this is modelled as the error branch.  Otherwise the
profile is dispatched on `is_continuous` to the point or section branch. -/
def discretize_profile (rows : List SRow) (y_bins : List ℚ) (fe : Bool) :
    Except String DiscOut :=
  match rows with
  | [] => Except.error "IndexError: index 0 is out of bounds for axis 0 with size 0"
  | r0 :: _ =>
    if is_continuous rows then do
      let src ← getPoints rows
      let targets := (pairsOf y_bins).map (fun p => (p.2 - p.1) / 2 + p.1)
      let out ← contResample (sortPts src) targets
      pure (DiscOut.cont out)
    else do
      let secs ← getSecs rows
      let out ← discretize_step (stepInput r0.v_ref secs) y_bins fe
      pure (DiscOut.step out)

/-- Worker for `uniqueStrs`: skip values already seen. -/
def uniqueAux (seen : List String) : List String → List String
  | [] => []
  | x :: xs => if x ∈ seen then uniqueAux seen xs else x :: uniqueAux (x :: seen) xs

/-- First-occurrence-order distinct values, as `pandas.Series.unique()`. -/
def uniqueStrs (l : List String) : List String :=
  uniqueAux [] l

/-- Worker for `splitComma`, scanning for the two-character separator. -/
def splitCommaAux : List Char → List Char → List String
  | [], acc => [String.mk acc.reverse]
  | ',' :: ' ' :: rest, acc => String.mk acc.reverse :: splitCommaAux rest []
  | c :: rest, acc => splitCommaAux rest (c :: acc)

/-- The Python `tag.split(', ')`: greedy left-to-right split of a group tag
on the exact separator `', '` (hand-rolled structurally so that concrete
instances evaluate). -/
def splitComma (s : String) : List String :=
  splitCommaAux s.data []

/-- The Python `', '.join(names)`. -/
def joinComma : List String → String
  | [] => ""
  | [x] => x
  | x :: y :: rest => x ++ ", " ++ joinComma (y :: rest)

/-- One row of a profile as read by `set_profile_orientation`: the variable
group tag, the vertical reference, the three depth columns and the two
candidate core-length columns (NaN cells are `none`; a missing column and an
all-NaN column coincide in this model). -/
structure PRow where
  var : String
  v_ref : String
  y_low : Option ℚ
  y_mid : Option ℚ
  y_sup : Option ℚ
  ice_thickness : Option ℚ
  length : Option ℚ
deriving DecidableEq, Repr

/-- The rows of one variable group: `profile[profile.variable == variable]`. -/
def groupRows (rows : List PRow) (g : String) : List PRow :=
  rows.filter (fun r => r.var = g)

/-- The characteristic core length of a variable group (profile.py lines
502-509): the first non-NaN `ice_thickness` if any, else the first non-NaN
`length`, else `None` (`.dropna().unique()[0]` is the first non-NaN value). -/
def lcOf (grows : List PRow) : Option ℚ :=
  match grows.filterMap PRow.ice_thickness with
  | v :: _ => some v
  | [] =>
    match grows.filterMap PRow.length with
    | v :: _ => some v
    | [] => none

/-- The coordinate rewrite of profile.py lines 520-524: each depth column is
replaced by `lc - x` (`DataFrame.update` skips NaN, and `lc - NaN` is NaN, so
NaN cells stay NaN) and the reference tag is assigned the literal string
`'bottom'` (line 523) whatever target was requested. -/
def flipRow (lc : ℚ) (r : PRow) : PRow :=
  { r with
    y_low := r.y_low.map (fun x => lc - x),
    y_mid := r.y_mid.map (fun x => lc - x),
    y_sup := r.y_sup.map (fun x => lc - x),
    v_ref := "bottom" }

/-- Processing of one variable group by `set_profile_orientation` (profile.py
lines 497-526).  The group reference is the first row of the group
(`.v_ref.unique().tolist()[0]`; the multi-reference case is only logged as an
error, line 499).  When it differs from the target: with no usable core
length the group is deleted via `delete_profile(profile, {'variable': g})`,
which for the single always-present key `variable` keeps exactly the rows
whose tag differs from `g`; with a core length `lc` the group rows are
rewritten by `flipRow`.  A group with no remaining rows would raise
`IndexError` at `.tolist()[0]`; that state is unreachable from the entry
point because each distinct group is visited once and only its own visit can
delete it, and it is modelled as a no-op. -/
def processGroup (t : String) (rows : List PRow) (g : String) : List PRow :=
  match (groupRows rows g).head? with
  | none => rows
  | some r0 =>
    if r0.v_ref = t then rows
    else
      match lcOf (groupRows rows g) with
      | none => rows.filter (fun r => ¬ r.var = g)
      | some lc => rows.map (fun r => if r.var = g then flipRow lc r else r)

/-- `set_profile_orientation(profile, v_ref)` (profile.py lines 487-528): the
distinct variable groups are computed once from the incoming profile
(`profile.variable.unique()` is evaluated before the loop body mutates or
rebinds `profile`) and processed in order. -/
def set_profile_orientation (rows : List PRow) (t : String) : List PRow :=
  (uniqueStrs (rows.map PRow.var)).foldl (processGroup t) rows

/-- A stacked-profile row: an association list from column name to cell
value; an absent key is a NaN cell. -/
abbrev StackRow := List (String × String)

/-- A stacked profile collection: the column set and the rows. -/
structure Stack where
  cols : List String
  rows : List StackRow
deriving DecidableEq, Repr

/-- Cell lookup in a stacked-profile row. -/
def cellOf (r : StackRow) (c : String) : Option String :=
  (r.find? (fun p => p.1 = c)).map Prod.snd

/-- The criteria that contribute an atom to the selection expression built by
`delete_profile` (profile.py lines 599-603): exactly the keys that are
columns of the stack, in criteria order. -/
def keptCriteria (s : Stack) (criteria : List (String × String)) :
    List (String × String) :=
  criteria.filter (fun kv => kv.1 ∈ s.cols)

/-- Evaluation of the assembled `(k0 != v0) | (k1 != v1) | ...` expression on
one row: the atoms `ics_stack.<key> != value` are combined by a left-nested
`|`-chain (a NaN cell compares unequal to every value, as in pandas). -/
def rowKeep (crit : List (String × String)) (r : StackRow) : Bool :=
  crit.foldl (fun acc kv => acc || decide (¬ cellOf r kv.1 = some kv.2)) false

/-- `delete_profile(ics_stack, variable_dict)` (profile.py lines 590-605):
the selection string is assembled from the criteria keys present among the
columns and passed to `eval`; rows satisfying it are kept.  When no key
contributes, the assembled string is `'('` trimmed by `[:-4]` to the empty
string, and `eval('')` raises `SyntaxError`. -/
def delete_profile (s : Stack) (criteria : List (String × String)) :
    Except String Stack :=
  match keptCriteria s criteria with
  | [] => Except.error "SyntaxError: unexpected EOF while parsing"
  | kv :: kvs =>
    Except.ok { s with rows := s.rows.filter (rowKeep (kv :: kvs)) }

/-- The module-level `subvariable_dict` (profile.py line 28). -/
def subvariableCols (v : String) : List String :=
  if v = "conductivity" then ["conductivity measurement temperature"] else []

/-- The distinct variable group tags of a stack, in first-occurrence order
(`ics_stack.variable.unique()`; rows with a NaN tag are skipped). -/
def groupsOf (s : Stack) : List String :=
  uniqueStrs (s.rows.filterMap (fun r => cellOf r "variable"))

/-- `get_variable` / `get_property` (profile.py lines 48-62): the property
names of every distinct group tag, split on `', '`. -/
def get_variable (s : Stack) : List String :=
  (groupsOf s).flatMap (fun g => splitComma g)

/-- `list.remove(x)`: remove the first occurrence only. -/
def removeFirst : List String → String → List String
  | [], _ => []
  | x :: xs, v => if x = v then xs else x :: removeFirst xs v

/-- Column assignment `ics_stack['variable'] = tag` restricted to one row:
overwrite the cell when the key exists, append it otherwise. -/
def setCell (r : StackRow) (c v : String) : StackRow :=
  if r.any (fun p => p.1 = c) then r.map (fun p => if p.1 = c then (c, v) else p)
  else r ++ [(c, v)]

/-- Drop a set of keys from a row. -/
def dropCells (r : StackRow) (cs : List String) : StackRow :=
  r.filter (fun p => ¬ p.1 ∈ cs)

/-- The column-dropping step of `delete_variables` (profile.py lines
536-544): the property column and its dependent subvariable columns are
dropped when the property is both a column and a member of some group tag. -/
def dropPropertyCols (s : Stack) (v : String) : Stack :=
  if v ∈ s.cols ∧ v ∈ get_variable s then
    let dead := v :: subvariableCols v
    { cols := s.cols.filter (fun c => ¬ c ∈ dead),
      rows := s.rows.map (fun r => dropCells r dead) }
  else s

/-- One iteration of the tag-rewrite loop of `delete_variables` (profile.py
lines 547-551): if the group tag contains `v`, the rewritten tag is assigned
to the whole `variable` column — every row of the stack, not just the rows of
that group (`ics_stack['variable'] = ', '.join(new_group)`, line 551). -/
def rewriteTagStep (v : String) (st : Stack) (g : String) : Stack :=
  let parts := splitComma g
  if v ∈ parts then
    { st with rows := st.rows.map (fun r =>
        setCell r "variable" (joinComma (removeFirst parts v))) }
  else st

/-- `delete_variables(ics_stack, v)` for a single property name (profile.py
lines 532-554): column dropping, then the tag-rewrite loop over the distinct
group tags (computed once before the loop, since `.unique()` is evaluated
before the first assignment mutates the column).  The trailing
`ics_stack.dropna(axis=1, how='all')` (line 553) is not in-place and its
result is discarded, so it has no effect and is not modelled. -/
def delete_variables1 (s : Stack) (v : String) : Stack :=
  let s1 := dropPropertyCols s v
  (groupsOf s1).foldl (rewriteTagStep v) s1

/-- `delete_variables` on a list of property names folds the single-name
deletion (the Python loop body handles one name per iteration). -/
def delete_variables (s : Stack) (vs : List String) : Stack :=
  vs.foldl delete_variables1 s

/-- Overlap length of one source section with the target bin `[b0, b1]`:
`min(section_end, b1) - max(section_start, b0)`. -/
def overlapLen (s : Sec) (b0 b1 : ℚ) : ℚ :=
  min s.y_sup b1 - max s.y_low b0

/-- Modelled from the claim wording, for comparison with the code (a
refinement reference, not a translation of the source): the structural
coverage weight of a target bin — the total overlap length of all overlapping
source sections, NaN-valued or not, divided by the bin width. -/
def spec_structural_weight (yx : List Sec) (b0 b1 : ℚ) : ℚ :=
  ((binOverlap yx b0 b1).map (fun s => overlapLen s b0 b1)).sum / (b1 - b0)

/-- The midpoint derivation of `uniformize_section` (profile.py line 661 for
the target profile and line 671 for the source profile): the expression is
`profile.y_low + profile.y_sup/2` — the parenthesization in the source binds
the division before the addition. -/
def derived_y_mid (y_low y_sup : ℚ) : ℚ :=
  y_low + y_sup / 2

/-- One row of a profile as read by the midpoint derivation of
`uniformize_section`. -/
structure URow where
  y_low : Option ℚ
  y_sup : Option ℚ
  y_mid : Option ℚ
deriving DecidableEq, Repr

/-- The target-midpoint computation of `uniformize_section` (profile.py lines
657-664): a section-sampled target uses its own `y_mid` column when it is not
entirely NaN and otherwise derives midpoints from `y_low`/`y_sup` via
`derived_y_mid` (pandas column addition is NaN when either operand is NaN,
and the NaN results are dropped); a continuous target uses its `y_mid`
column. -/
def uniformize_target_mids (rows : List URow) (isCont : Bool) : List ℚ :=
  if isCont = false then
    if (rows.filterMap URow.y_mid) ≠ [] then rows.filterMap URow.y_mid
    else rows.filterMap (fun r =>
      match r.y_low, r.y_sup with
      | some lo, some hi => some (derived_y_mid lo hi)
      | _, _ => none)
  else rows.filterMap URow.y_mid

/-- The group-safety condition under which `set_profile_orientation` does not
delete a variable group: the group is empty, already carries the target
reference on its first row, or has a usable core length. -/
def SafeNow (t : String) (rows : List PRow) (p : String) : Prop :=
  (groupRows rows p).head? = none ∨
  ((groupRows rows p).head?).map PRow.v_ref = some t ∨
  lcOf (groupRows rows p) ≠ none

/-
THEOREMS
-/

/-- C1: for a section-sampled profile with sections `(0,10,value 5)` and
`(10,20,value 7)` on a single variable and target bin edges `[0,5,15,20]`,
`discretize_profile` emits exactly three output sections: `(0,5)` with value
5 and weight 1, `(5,15)` with value 6 and weight 1, and `(15,20)` with value
7 and weight 1. -/
theorem C1_discretize_example :
    discretize_profile
      [⟨"top", some 0, none, some 10, some 5⟩, ⟨"top", some 10, none, some 20, some 7⟩]
      [0, 5, 15, 20] false =
    Except.ok (DiscOut.step
      [⟨0, 5/2, 5, some 5, 1⟩, ⟨5, 10, 15, some 6, 1⟩, ⟨15, 35/2, 20, some 7, 1⟩]) := by
  have h1 : getSecs [⟨"top", some 0, none, some 10, some 5⟩, ⟨"top", some 10, none, some 20, some 7⟩]
      = Except.ok [⟨0, 10, some 5⟩, ⟨10, 20, some 7⟩] := rfl
  have h2 : stepInput "top" [⟨0, 10, some 5⟩, ⟨10, 20, some 7⟩]
      = [⟨0, 10, some 5⟩, ⟨10, 20, some 7⟩] := by decide
  have h3 : insertGaps [⟨0, 10, some 5⟩, ⟨10, 20, some 7⟩]
      = Except.ok [⟨0, 10, some 5⟩, ⟨10, 20, some 7⟩] := by
    norm_num [insertGaps, insertGapsGo, TOL]
  have h4 : orientEdges [0, 5, 15, 20] = [0, 5, 15, 20] := by decide
  have h5 : orientSecs [⟨0, 10, some 5⟩, ⟨10, 20, some 7⟩]
      = [⟨0, 10, some 5⟩, ⟨10, 20, some 7⟩] := by decide
  have h6a : binResult [⟨0, 10, some 5⟩, ⟨10, 20, some 7⟩] false 0 5
      = some ⟨0, 5, some 5, 1⟩ := by
    norm_num [binResult, binOverlap, accumBin, phase2, phase3, contrib, nanAdd, TOL]
  have h6b : binResult [⟨0, 10, some 5⟩, ⟨10, 20, some 7⟩] false 5 15
      = some ⟨5, 15, some 6, 1⟩ := by
    norm_num [binResult, binOverlap, accumBin, phase2, phase3, contrib, nanAdd, TOL]
  have h6c : binResult [⟨0, 10, some 5⟩, ⟨10, 20, some 7⟩] false 15 20
      = some ⟨15, 20, some 7, 1⟩ := by
    norm_num [binResult, binOverlap, accumBin, phase2, phase3, contrib, nanAdd, TOL]
  have h8 : (pairsOf [0, 5, 15, 20]).filterMap
      (fun p => binResult [⟨0, 10, some 5⟩, ⟨10, 20, some 7⟩] false p.1 p.2)
      = [⟨0, 5, some 5, 1⟩, ⟨5, 15, some 6, 1⟩, ⟨15, 20, some 7, 1⟩] := by
    simp [pairsOf, h6a, h6b, h6c]
  have h9 : assemble [⟨0, 5, some 5, 1⟩, ⟨5, 15, some 6, 1⟩, ⟨15, 20, some 7, 1⟩]
      = Except.ok [⟨0, 5/2, 5, some 5, 1⟩, ⟨5, 10, 15, some 6, 1⟩, ⟨15, 35/2, 20, some 7, 1⟩] := by
    norm_num [assemble, uniqueQ, sortQ, insertSorted, dedupAdj]
  have hstep : discretize_step [⟨0, 10, some 5⟩, ⟨10, 20, some 7⟩] [0, 5, 15, 20] false
      = Except.ok [⟨0, 5/2, 5, some 5, 1⟩, ⟨5, 10, 15, some 6, 1⟩, ⟨15, 35/2, 20, some 7, 1⟩] := by
    rw [discretize_step, h3]
    show (Except.ok [Sec.mk 0 10 (some 5), ⟨10, 20, some 7⟩]).bind _ = _
    rw [Except.bind]
    simp only [h4, h5, h8, h9]
  rw [discretize_profile]
  simp [is_continuous, h1, h2, hstep, Except.bind, Except.map, Bind.bind, Functor.map,
    Pure.pure, Except.pure]

/-- C2 counterexample: the bin `(0,10)` of target edges `[0,10,20]` is
entirely covered by the NaN-valued source section `(0,10,NaN)`, so the
structural coverage of the claim is `10/10 = 1`, yet the code emits the bin
with weight 0 (and the second bin, covered by a valid section, with weight
1): the emitted weight is not the structural coverage. -/
theorem C2_weight_not_structural :
    discretize_step [⟨0, 10, none⟩, ⟨10, 20, some 5⟩] [0, 10, 20] false =
      Except.ok [⟨0, 5, 10, none, 0⟩, ⟨10, 15, 20, some 5, 1⟩] ∧
    spec_structural_weight [⟨0, 10, none⟩, ⟨10, 20, some 5⟩] 0 10 = 1 ∧
    (0 : ℚ) ≠ 1 := by
  refine ⟨?_, ?_, by norm_num⟩
  · have h3 : insertGaps [⟨0, 10, none⟩, ⟨10, 20, some 5⟩]
        = Except.ok [⟨0, 10, none⟩, ⟨10, 20, some 5⟩] := by
      norm_num [insertGaps, insertGapsGo, TOL]
    have h4 : orientEdges [0, 10, 20] = [0, 10, 20] := by decide
    have h5 : orientSecs [⟨0, 10, none⟩, ⟨10, 20, some 5⟩]
        = [⟨0, 10, none⟩, ⟨10, 20, some 5⟩] := by decide
    have h6a : binResult [⟨0, 10, none⟩, ⟨10, 20, some 5⟩] false 0 10
        = some ⟨0, 10, none, 0⟩ := by
      norm_num [binResult, binOverlap, accumBin, phase2, phase3, contrib, nanAdd, TOL]
    have h6b : binResult [⟨0, 10, none⟩, ⟨10, 20, some 5⟩] false 10 20
        = some ⟨10, 20, some 5, 1⟩ := by
      norm_num [binResult, binOverlap, accumBin, phase2, phase3, contrib, nanAdd, TOL]
    have h8 : (pairsOf [0, 10, 20]).filterMap
        (fun p => binResult [⟨0, 10, none⟩, ⟨10, 20, some 5⟩] false p.1 p.2)
        = [⟨0, 10, none, 0⟩, ⟨10, 20, some 5, 1⟩] := by
      simp [pairsOf, h6a, h6b]
    have h9 : assemble [⟨0, 10, none, 0⟩, ⟨10, 20, some 5, 1⟩]
        = Except.ok [⟨0, 5, 10, none, 0⟩, ⟨10, 15, 20, some 5, 1⟩] := by
      norm_num [assemble, uniqueQ, sortQ, insertSorted, dedupAdj]
    rw [discretize_step, h3]
    show (Except.ok [Sec.mk 0 10 none, ⟨10, 20, some 5⟩]).bind _ = _
    rw [Except.bind]
    simp only [h4, h5, h8, h9]
  · norm_num [spec_structural_weight, binOverlap, overlapLen, TOL]

/-- C3: discretizing an empty profile is not a no-op — after logging the
warning the code unconditionally evaluates `profile.v_ref.unique()[0]`
(profile.py line 206), which raises `IndexError` on a profile with no rows
instead of returning. -/
theorem C3_empty_profile_raises :
    discretize_profile [] [0, 1] false =
      Except.error "IndexError: index 0 is out of bounds for axis 0 with size 0" := rfl

/-- C4: requesting orientation `top` for a group currently referenced
`bottom` (core length 10) rewrites each depth column to `length - old`, but
the reference tag is assigned the literal `'bottom'` (profile.py line 523),
not the requested target `'top'`: the returned row carries flipped
coordinates under an unchanged `bottom` tag. -/
theorem C4_orientation_tag_hardcoded :
    set_profile_orientation
      [⟨"salinity", "bottom", some 2, some 3, some 4, none, some 10⟩] "top" =
      [⟨"salinity", "bottom", some 8, some 7, some 6, none, some 10⟩] ∧
    "bottom" ≠ "top" := by
  refine ⟨?_, by decide⟩
  have hu : uniqueStrs (List.map PRow.var
      [⟨"salinity", "bottom", some 2, some 3, some 4, none, some 10⟩]) = ["salinity"] := rfl
  have hgr : groupRows [(⟨"salinity", "bottom", some 2, some 3, some 4, none, some 10⟩ : PRow)]
      "salinity" = [⟨"salinity", "bottom", some 2, some 3, some 4, none, some 10⟩] := rfl
  have hlc : lcOf [(⟨"salinity", "bottom", some 2, some 3, some 4, none, some 10⟩ : PRow)]
      = some 10 := rfl
  rw [set_profile_orientation, hu]
  simp only [List.foldl_cons, List.foldl_nil]
  rw [processGroup, hgr, hlc]
  simp [flipRow]
  norm_num

/-- C7 counterexample: on a stack with groups `salinity, temperature` and
`conductivity`, deleting `salinity` assigns the rewritten tag `temperature`
to the whole column, so the row of the `conductivity` group — which never
contained `salinity` — ends with tag `temperature` instead of its original
`conductivity`. -/
theorem C7_tag_rewrite_is_global :
    cellOf
      ((delete_variables1
        ⟨["variable", "salinity", "temperature", "conductivity"],
         [[("variable", "salinity, temperature"), ("salinity", "5"), ("temperature", "-2")],
          [("variable", "conductivity"), ("conductivity", "3")]]⟩
        "salinity").rows.getD 1 []) "variable" = some "temperature" ∧
    some "temperature" ≠ some "conductivity" := by
  refine ⟨by decide, by decide⟩

/-- C8: the midpoint derived by `uniformize_section` from the section bounds
is computed by the expression `y_low + y_sup/2` (profile.py lines 661 and
671), which at bounds `(10,20)` yields 20, not the interval midpoint
`(10+20)/2 = 15`. -/
theorem C8_derived_mid_not_midpoint :
    derived_y_mid 10 20 = 20 ∧
    uniformize_target_mids [⟨some 10, some 20, none⟩] false = [20] ∧
    ((10 : ℚ) + 20) / 2 = 15 ∧ (20 : ℚ) ≠ 15 := by
  refine ⟨by norm_num [derived_y_mid], by norm_num [uniformize_target_mids, derived_y_mid, List.filterMap_cons],
    by norm_num, by norm_num⟩

theorem foldl_or_eq {α : Type} (p : α → Bool) :
    ∀ (l : List α) (b : Bool), l.foldl (fun acc x => acc || p x) b = (b || l.any p) := by
  intro l
  induction l with
  | nil => intro b; simp
  | cons x xs ih => intro b; simp [List.foldl_cons, ih, Bool.or_assoc]

theorem rowKeep_iff (crit : List (String × String)) (r : StackRow) :
    rowKeep crit r = true ↔ ∃ kv ∈ crit, ¬ cellOf r kv.1 = some kv.2 := by
  rw [rowKeep, foldl_or_eq]
  simp [List.any_eq_true]

theorem mem_keptCriteria (s : Stack) (criteria : List (String × String))
    (kv : String × String) :
    kv ∈ keptCriteria s criteria ↔ kv ∈ criteria ∧ kv.1 ∈ s.cols := by
  simp [keptCriteria, List.mem_filter]

/-- C10: for every stack and criteria dict in which no key is a column of the
stack (in particular the empty dict), `delete_profile` raises: the assembled
selection string is the empty string and `eval` fails with `SyntaxError`
instead of returning the stack unchanged. -/
theorem C10_no_key_matches_raises (s : Stack) (criteria : List (String × String))
    (h : ∀ kv ∈ criteria, ¬ kv.1 ∈ s.cols) :
    delete_profile s criteria = Except.error "SyntaxError: unexpected EOF while parsing" := by
  have hk : keptCriteria s criteria = [] := by
    simp only [keptCriteria, List.filter_eq_nil_iff]
    intro kv hkv
    simpa using h kv hkv
  rw [delete_profile, hk]

/-- C6: `delete_profile(stack, criteria)` keeps exactly the rows for which at
least one applicable criterion key's column value differs from the given
value (logical OR across criteria), so a row is removed only when it matches
all criteria simultaneously. -/
theorem C6_delete_profile_or (s : Stack) (criteria : List (String × String))
    (out : Stack) (hok : delete_profile s criteria = Except.ok out) (r : StackRow) :
    r ∈ out.rows ↔
      r ∈ s.rows ∧ ∃ kv ∈ criteria, kv.1 ∈ s.cols ∧ ¬ cellOf r kv.1 = some kv.2 := by
  rw [delete_profile] at hok
  cases hkc : keptCriteria s criteria with
  | nil => rw [hkc] at hok; exact absurd hok (by simp)
  | cons kv kvs =>
    rw [hkc] at hok
    have hout : out = { s with rows := s.rows.filter (rowKeep (kv :: kvs)) } := by
      cases hok; rfl
    subst hout
    rw [← hkc]
    simp only [List.mem_filter]
    constructor
    · rintro ⟨hr, hkeep⟩
      refine ⟨hr, ?_⟩
      obtain ⟨kv2, hkv2, hne⟩ := (rowKeep_iff _ _).mp hkeep
      obtain ⟨hmem, hcol⟩ := (mem_keptCriteria s criteria kv2).mp (hkc ▸ hkv2)
      exact ⟨kv2, hmem, hcol, hne⟩
    · rintro ⟨hr, kv2, hmem, hcol, hne⟩
      refine ⟨hr, (rowKeep_iff _ _).mpr ?_⟩
      exact ⟨kv2, hkc ▸ (mem_keptCriteria s criteria kv2).mpr ⟨hmem, hcol⟩, hne⟩
/-- Witness for C10 at the empty criteria dict. -/
theorem C10_witness :
    delete_profile ⟨["name"], [[("name", "core1")]]⟩ [] =
      Except.error "SyntaxError: unexpected EOF while parsing" :=
  C10_no_key_matches_raises ⟨["name"], [[("name", "core1")]]⟩ [] (by simp)

/-- Witness for C6: the spec example stack with cores core1 and core2. -/
theorem C6_witness :
    ([("name", "core2")] : StackRow) ∈
        (Stack.mk ["name"] [[("name", "core2")]]).rows ↔
      ([("name", "core2")] : StackRow) ∈
          (Stack.mk ["name"] [[("name", "core1")], [("name", "core2")]]).rows ∧
        ∃ kv ∈ [("name", "core1")], kv.1 ∈ ["name"] ∧
          ¬ cellOf [("name", "core2")] kv.1 = some kv.2 :=
  C6_delete_profile_or ⟨["name"], [[("name", "core1")], [("name", "core2")]]⟩
    [("name", "core1")] ⟨["name"], [[("name", "core2")]]⟩ (by rfl) [("name", "core2")]

theorem cellOf_map_set (c val : String) :
    ∀ (r : StackRow), r.any (fun q => q.1 = c) →
      cellOf (r.map (fun q => if q.1 = c then (c, val) else q)) c = some val := by
  intro r
  induction r with
  | nil => simp
  | cons p rest ih =>
    intro hany
    by_cases hp : p.1 = c
    · simp [cellOf, List.find?, hp]
    · have hrest : rest.any (fun q => q.1 = c) := by
        simpa [List.any_cons, hp] using hany
      simpa [cellOf, List.find?, hp, decide_eq_false hp] using ih hrest

theorem cellOf_append_set (c val : String) :
    ∀ (r : StackRow), ¬ r.any (fun q => q.1 = c) →
      cellOf (r ++ [(c, val)]) c = some val := by
  intro r
  induction r with
  | nil => simp [cellOf, List.find?]
  | cons p rest ih =>
    intro hany
    have hp : ¬ p.1 = c := by
      intro h; exact hany (by simp [List.any_cons, h])
    have hrest : ¬ rest.any (fun q => q.1 = c) := by
      intro h; exact hany (by simp [List.any_cons, h])
    simpa [cellOf, List.find?, decide_eq_false hp] using ih hrest

theorem cellOf_setCell (c val : String) (r : StackRow) :
    cellOf (setCell r c val) c = some val := by
  rw [setCell]
  by_cases ha : r.any (fun q => q.1 = c)
  · rw [if_pos ha]; exact cellOf_map_set c val r ha
  · rw [if_neg ha]; exact cellOf_append_set c val r ha
theorem rewriteTag_fold_no_hit (v : String) :
    ∀ (gs : List String) (st : Stack),
      (∀ g ∈ gs, ¬ v ∈ splitComma g) →
      gs.foldl (rewriteTagStep v) st = st := by
  intro gs
  induction gs with
  | nil => intro st _; rfl
  | cons g rest ih =>
    intro st h
    have hg : ¬ v ∈ splitComma g := h g (by simp)
    rw [List.foldl_cons, rewriteTagStep, if_neg hg]
    exact ih st (fun g2 hg2 => h g2 (by simp [hg2]))

theorem rewriteTag_fold_last_hit (v gl : String) :
    ∀ (gs : List String) (st : Stack),
      (gs.filter (fun g => decide (v ∈ splitComma g))).getLast? = some gl →
      ∀ r ∈ (gs.foldl (rewriteTagStep v) st).rows,
        cellOf r "variable" = some (joinComma (removeFirst (splitComma gl) v)) := by
  intro gs
  induction gs with
  | nil => intro st h; simp at h
  | cons g rest ih =>
    intro st h
    by_cases hg : v ∈ splitComma g
    · rw [List.filter_cons_of_pos (by simpa using hg)] at h
      cases hrest : rest.filter (fun g => decide (v ∈ splitComma g)) with
      | nil =>
        rw [hrest, List.getLast?_singleton] at h
        have hgl : gl = g := (Option.some.inj h).symm
        subst hgl
        intro r hr
        rw [List.foldl_cons] at hr
        have hnh : ∀ g2 ∈ rest, ¬ v ∈ splitComma g2 := by
          intro g2 hg2
          simpa using List.filter_eq_nil_iff.mp hrest g2 hg2
        rw [rewriteTag_fold_no_hit v rest _ hnh] at hr
        rw [rewriteTagStep, if_pos hg] at hr
        simp only [List.mem_map] at hr
        obtain ⟨r0, _, rfl⟩ := hr
        exact cellOf_setCell _ _ _
      | cons g2 t =>
        rw [hrest] at h
        have h2 : (rest.filter (fun g => decide (v ∈ splitComma g))).getLast? = some gl := by
          rw [hrest]
          simpa [List.getLast?_cons_cons] using h
        intro r hr
        rw [List.foldl_cons] at hr
        exact ih (rewriteTagStep v st g) h2 r hr
    · rw [List.filter_cons_of_neg (by simpa using hg)] at h
      intro r hr
      rw [List.foldl_cons, rewriteTagStep, if_neg hg] at hr
      exact ih st h r hr
/-- C7 (amended): the tag rewrite of `delete_variables` is global — when some
distinct group tag contains the deleted property, every row of the stack ends
carrying the rewrite (with the property removed) of the last such group in
first-appearance order, whether or not that row's own group contained it. -/
theorem C7_amended_global_overwrite (s : Stack) (v gl : String)
    (hlast : ((groupsOf (dropPropertyCols s v)).filter
      (fun g => decide (v ∈ splitComma g))).getLast? = some gl) :
    ∀ r ∈ (delete_variables1 s v).rows,
      cellOf r "variable" = some (joinComma (removeFirst (splitComma gl) v)) := by
  rw [delete_variables1]
  exact rewriteTag_fold_last_hit v gl (groupsOf (dropPropertyCols s v)) (dropPropertyCols s v) hlast

/-- Witness for C7 (amended) at the two-group example stack. -/
theorem C7_amended_witness :
    cellOf [("variable", "temperature"), ("conductivity", "3")] "variable" =
      some (joinComma (removeFirst (splitComma "salinity, temperature") "salinity")) :=
  C7_amended_global_overwrite
    ⟨["variable", "salinity", "temperature", "conductivity"],
     [[("variable", "salinity, temperature"), ("salinity", "5"), ("temperature", "-2")],
      [("variable", "conductivity"), ("conductivity", "3")]]⟩
    "salinity" "salinity, temperature" (by decide)
    [("variable", "temperature"), ("conductivity", "3")] (by decide)
theorem npInterp_below (y : ℚ) :
    ∀ (src : List Pt), (∀ p ∈ src, y < p.1) → npInterp src y = none := by
  intro src
  induction src with
  | nil => intro _; rfl
  | cons p rest ih =>
    intro h
    cases rest with
    | nil => simp [npInterp, h p (by simp)]
    | cons q t => simp [npInterp, h p (by simp)]

theorem npInterp_above (y : ℚ) :
    ∀ (src : List Pt), (∀ p ∈ src, p.1 < y) → npInterp src y = none := by
  intro src
  induction src with
  | nil => intro _; rfl
  | cons p rest ih =>
    intro h
    cases rest with
    | nil =>
      have hp := h p (by simp)
      simp [npInterp, not_lt_of_gt hp, hp]
    | cons q t =>
      have hp := h p (by simp)
      have hq := h q (by simp)
      rw [npInterp]
      rw [if_neg (not_lt_of_gt hp), if_neg (by exact not_le_of_gt hq)]
      exact ih (fun p2 hp2 => h p2 (by simp [hp2]))
theorem mem_of_getLast_some {α : Type} {l : List α} {a : α} (h : l.getLast? = some a) :
    a ∈ l := by
  obtain ⟨hne, rfl⟩ := List.mem_getLast?_eq_getLast (Option.mem_def.mpr h)
  exact List.getLast_mem hne

theorem sorted_head_le (src : List Pt) (p0 : Pt) (hhead : src.head? = some p0)
    (hpw : src.Pairwise (fun p q => p.1 < q.1)) : ∀ p ∈ src, p0.1 ≤ p.1 := by
  cases src with
  | nil => simp at hhead
  | cons a rest =>
    have ha : a = p0 := by simpa using hhead
    subst ha
    intro p hp
    rcases List.mem_cons.mp hp with rfl | hp2
    · exact le_refl _
    · exact le_of_lt ((List.pairwise_cons.mp hpw).1 p hp2)

theorem sorted_le_getLast :
    ∀ (src : List Pt) (pn : Pt), src.getLast? = some pn →
      src.Pairwise (fun p q => p.1 < q.1) → ∀ p ∈ src, p.1 ≤ pn.1 := by
  intro src
  induction src with
  | nil => intro pn h _; simp at h
  | cons a rest ih =>
    intro pn hlast hpw p hp
    cases rest with
    | nil =>
      have h1 : pn = a := by simpa using hlast.symm
      have h2 : p = a := by simpa using hp
      rw [h1, h2]
    | cons b t =>
      rw [List.getLast?_cons_cons] at hlast
      rcases List.mem_cons.mp hp with rfl | hp2
      · have hpn_mem : pn ∈ b :: t := mem_of_getLast_some hlast
        exact le_of_lt ((List.pairwise_cons.mp hpw).1 pn hpn_mem)
      · exact ih pn hlast (List.pairwise_cons.mp hpw).2 p hp2
/-- C9: in continuous resampling over a sorted nonempty source, every target
depth strictly outside `[min(source), max(source)]` by more than `TOL = 1e-6`
receives value NaN and coverage weight 0, and every target depth inside that
interval (inclusive, with tolerance) receives coverage weight 1. -/
theorem C9_cont_outside_domain (src : List Pt) (p0 pn : Pt) (y : ℚ)
    (hhead : src.head? = some p0) (hlast : src.getLast? = some pn)
    (hpw : src.Pairwise (fun p q => p.1 < q.1)) :
    ((y < p0.1 - TOL ∨ pn.1 + TOL < y) →
      contValue src y = none ∧ contWeight src y = 0) ∧
    (p0.1 - TOL ≤ y ∧ y ≤ pn.1 + TOL → contWeight src y = 1) := by
  have htol : (0 : ℚ) < TOL := by norm_num [TOL]
  constructor
  · intro hout
    have hmatch : exactMatch src y = none := by
      rw [exactMatch]
      have hfil : src.filter (fun p => |y - p.1| < TOL) = [] := by
        rw [List.filter_eq_nil_iff]
        intro p hp
        simp only [decide_eq_true_eq, not_lt]
        rcases hout with hlow | hhigh
        · have hle := sorted_head_le src p0 hhead hpw p hp
          rw [abs_sub_comm, abs_of_nonneg (by linarith)]
          linarith
        · have hle := sorted_le_getLast src pn hlast hpw p hp
          rw [abs_of_nonneg (by linarith)]
          linarith
      rw [hfil]; rfl
    refine ⟨?_, ?_⟩
    · rw [contValue, hmatch]
      rcases hout with hlow | hhigh
      · refine npInterp_below y src (fun p hp => ?_)
        have hle := sorted_head_le src p0 hhead hpw p hp
        linarith
      · refine npInterp_above y src (fun p hp => ?_)
        have hle := sorted_le_getLast src pn hlast hpw p hp
        linarith
    · rw [contWeight]
      simp only [hhead, hlast]
      rw [if_neg]
      rintro ⟨h1, h2⟩
      rcases hout with hlow | hhigh
      · linarith
      · linarith
  · rintro ⟨h1, h2⟩
    rw [contWeight]
    simp only [hhead, hlast]
    rw [if_pos ⟨h1, h2⟩]

/-- Witness for C9 at a two-point source and a depth beyond the maximum. -/
theorem C9_witness :
    contValue [((0 : ℚ), (3 : ℚ)), ((10 : ℚ), (7 : ℚ))] 20 = none ∧
    contWeight [((0 : ℚ), (3 : ℚ)), ((10 : ℚ), (7 : ℚ))] 20 = 0 :=
  (C9_cont_outside_domain [(0, 3), (10, 7)] (0, 3) (10, 7) 20 rfl rfl
    (by norm_num)).1 (Or.inr (by norm_num [TOL]))
theorem contrib_none_L (acc : Acc) (l : ℚ) : (contrib acc none l).L = acc.L := by
  simp [contrib]

theorem phase2_none (b1 : ℚ) :
    ∀ (rem : List Sec) (acc : Acc), (∀ s ∈ rem, s.value = none) →
      (phase2 b1 acc rem).1.L = acc.L ∧ ∀ s ∈ (phase2 b1 acc rem).2, s.value = none := by
  intro rem
  induction rem with
  | nil => intro acc h; exact ⟨rfl, h⟩
  | cons s1 tl ih =>
    intro acc h
    cases tl with
    | nil => exact ⟨rfl, h⟩
    | cons s2 rest =>
      rw [phase2]
      by_cases hc : s1.y_sup - b1 < -TOL
      · rw [if_pos hc]
        have hs1 : s1.value = none := h s1 (by simp)
        have htl : ∀ s ∈ s2 :: rest, s.value = none := fun s hs => h s (by simp [hs])
        have hrec := ih (contrib acc s1.value (s1.y_sup - s1.y_low)) htl
        refine ⟨?_, hrec.2⟩
        rw [hrec.1, hs1, contrib_none_L]
      · rw [if_neg hc]
        exact ⟨rfl, h⟩

theorem phase3_none (b1 : ℚ) (acc : Acc) :
    ∀ (rem : List Sec), (∀ s ∈ rem, s.value = none) → (phase3 b1 acc rem).L = acc.L := by
  intro rem h
  cases rem with
  | nil => rfl
  | cons s t =>
    have hs : s.value = none := h s (by simp)
    rw [phase3]
    by_cases h1 : s.y_sup - b1 > -TOL
    · rw [if_pos h1, hs, contrib_none_L]
    · rw [if_neg h1]
      by_cases h2 : s.y_sup - b1 < -TOL
      · rw [if_pos h2, hs, contrib_none_L]
      · rw [if_neg h2]

theorem accumBin_none (b0 b1 : ℚ) (secs : List Sec)
    (h : ∀ s ∈ secs, s.value = none) : (accumBin b0 b1 secs).L = 0 := by
  cases secs with
  | nil => rfl
  | cons s rest =>
    have hs : s.value = none := h s (by simp)
    have hrest : ∀ t ∈ rest, t.value = none := fun t ht => h t (by simp [ht])
    rw [accumBin]
    by_cases hc : s.y_low - b0 < -TOL
    · simp only [if_pos hc]
      have h2 := phase2_none b1 rest (contrib ⟨none, 0⟩ s.value (s.y_sup - b0)) hrest
      rw [phase3_none b1 _ _ h2.2, h2.1, hs, contrib_none_L]
    · simp only [if_neg hc]
      have h2 := phase2_none b1 (s :: rest) ⟨none, 0⟩ h
      rw [phase3_none b1 _ _ h2.2, h2.1]

/-- C2 (amended): NaN-valued sections contribute nothing to the emitted
coverage weight — a target bin that overlaps at least one source section but
only NaN-valued ones is emitted with weight 0 and value NaN, not with the
structural coverage fraction. -/
theorem C2_amended_nan_sections_weightless (yx : List Sec) (fe : Bool) (b0 b1 : ℚ)
    (hne : binOverlap yx b0 b1 ≠ [])
    (hnan : ∀ s ∈ binOverlap yx b0 b1, s.value = none) :
    ∃ e, binResult yx fe b0 b1 = some e ∧ e.w = 0 ∧ e.value = none := by
  rw [binResult]
  cases hbo : binOverlap yx b0 b1 with
  | nil => exact absurd hbo hne
  | cons s0 rest =>
    rw [hbo] at hnan
    have hL : (accumBin b0 b1 (s0 :: rest)).L = 0 := accumBin_none b0 b1 _ hnan
    refine ⟨_, rfl, ?_, ?_⟩
    · show (accumBin b0 b1 (s0 :: rest)).L / (b1 - b0) = 0
      rw [hL]
      exact zero_div _
    · show (match (accumBin b0 b1 (s0 :: rest)).S with
        | none => none
        | some sv => if (accumBin b0 b1 (s0 :: rest)).L = 0 then none
            else some (sv / (accumBin b0 b1 (s0 :: rest)).L)) = none
      cases hS : (accumBin b0 b1 (s0 :: rest)).S with
      | none => rfl
      | some sv => simp only [if_pos hL]

/-- Witness for C2 (amended) at a bin covered by two NaN sections. -/
theorem C2_amended_witness :
    ∃ e, binResult [⟨0, 10, none⟩, ⟨10, 20, none⟩] false 0 20 = some e ∧
      e.w = 0 ∧ e.value = none :=
  C2_amended_nan_sections_weightless [⟨0, 10, none⟩, ⟨10, 20, none⟩] false 0 20
    (by
      have hbo : binOverlap [⟨0, 10, none⟩, ⟨10, 20, none⟩] 0 20
          = [⟨0, 10, none⟩, ⟨10, 20, none⟩] := by norm_num [binOverlap, TOL]
      rw [hbo]; simp)
    (by norm_num [binOverlap, TOL])
theorem processGroup_empty (t : String) (rows : List PRow) (g : String)
    (h : (groupRows rows g).head? = none) : processGroup t rows g = rows := by
  rw [processGroup, h]

theorem processGroup_done (t : String) (rows : List PRow) (g : String) (r0 : PRow)
    (h : (groupRows rows g).head? = some r0) (hv : r0.v_ref = t) :
    processGroup t rows g = rows := by
  rw [processGroup, h]
  simp only [if_pos hv]

theorem processGroup_del (t : String) (rows : List PRow) (g : String) (r0 : PRow)
    (h : (groupRows rows g).head? = some r0) (hv : ¬ r0.v_ref = t)
    (hlc : lcOf (groupRows rows g) = none) :
    processGroup t rows g = rows.filter (fun r => ¬ r.var = g) := by
  rw [processGroup, h]
  simp only [if_neg hv, hlc]

theorem processGroup_flip (t : String) (rows : List PRow) (g : String) (r0 : PRow) (lc : ℚ)
    (h : (groupRows rows g).head? = some r0) (hv : ¬ r0.v_ref = t)
    (hlc : lcOf (groupRows rows g) = some lc) :
    processGroup t rows g = rows.map (fun r => if r.var = g then flipRow lc r else r) := by
  rw [processGroup, h]
  simp only [if_neg hv, hlc]
theorem flipRow_var (lc : ℚ) (r : PRow) : (flipRow lc r).var = r.var := rfl

theorem groupRows_filter_other (rows : List PRow) (g p : String) (hne : ¬ p = g) :
    groupRows (rows.filter (fun r => ¬ r.var = g)) p = groupRows rows p := by
  rw [groupRows, groupRows, List.filter_filter]
  apply List.filter_congr
  intro r _
  by_cases hrp : r.var = p
  · simp [hrp, hne]
  · simp [hrp]

theorem groupRows_map_flip (rows : List PRow) (g p : String) (lc : ℚ) :
    groupRows (rows.map (fun r => if r.var = g then flipRow lc r else r)) p =
      (groupRows rows p).map (fun r => if r.var = g then flipRow lc r else r) := by
  rw [groupRows, groupRows, List.filter_map]
  congr 1
  apply List.filter_congr
  intro r _
  by_cases hrg : r.var = g
  · simp [Function.comp, hrg, flipRow_var]
  · simp [Function.comp, hrg]

theorem groupRows_processGroup_other (t : String) (rows : List PRow) (g p : String)
    (hne : ¬ p = g) :
    groupRows (processGroup t rows g) p = groupRows rows p := by
  cases hh : (groupRows rows g).head? with
  | none => rw [processGroup_empty t rows g hh]
  | some r0 =>
    by_cases hv : r0.v_ref = t
    · rw [processGroup_done t rows g r0 hh hv]
    · cases hlc : lcOf (groupRows rows g) with
      | none =>
        rw [processGroup_del t rows g r0 hh hv hlc]
        exact groupRows_filter_other rows g p hne
      | some lc =>
        rw [processGroup_flip t rows g r0 lc hh hv hlc]
        rw [groupRows_map_flip]
        have : ∀ r ∈ groupRows rows p, (if r.var = g then flipRow lc r else r) = r := by
          intro r hr
          have hrp : r.var = p := by
            have := List.mem_filter.mp hr
            simpa using this.2
          rw [if_neg (by rw [hrp]; exact hne)]
        rw [List.map_congr_left this]
        exact List.map_id _
theorem SafeNow_of_groupRows_eq (t : String) (rows1 rows2 : List PRow) (p : String)
    (heq : groupRows rows2 p = groupRows rows1 p) (hs : SafeNow t rows1 p) :
    SafeNow t rows2 p := by
  rw [SafeNow, heq]
  exact hs

theorem lcOf_map_flip (l : List PRow) (g : String) (lc : ℚ) :
    lcOf (l.map (fun r => if r.var = g then flipRow lc r else r)) = lcOf l := by
  have hice : l.filterMap (fun r => PRow.ice_thickness (if r.var = g then flipRow lc r else r))
      = l.filterMap PRow.ice_thickness := by
    apply List.filterMap_congr
    intro r _
    by_cases hrg : r.var = g <;> simp [hrg, flipRow]
  have hlen : l.filterMap (fun r => PRow.length (if r.var = g then flipRow lc r else r))
      = l.filterMap PRow.length := by
    apply List.filterMap_congr
    intro r _
    by_cases hrg : r.var = g <;> simp [hrg, flipRow]
  rw [lcOf, lcOf, List.filterMap_map, List.filterMap_map]
  simp only [Function.comp_def]
  rw [hice, hlen]

theorem processGroup_safe (t : String) (rows : List PRow) (g p : String)
    (hs : SafeNow t rows p) : SafeNow t (processGroup t rows g) p := by
  by_cases hpg : p = g
  · subst hpg
    cases hh : (groupRows rows p).head? with
    | none => rw [processGroup_empty t rows p hh]; exact hs
    | some r0 =>
      by_cases hv : r0.v_ref = t
      · rw [processGroup_done t rows p r0 hh hv]; exact hs
      · cases hlc : lcOf (groupRows rows p) with
        | none =>
          exfalso
          rcases hs with h1 | h1 | h1
          · rw [hh] at h1; exact Option.noConfusion h1
          · rw [hh] at h1
            exact hv (Option.some.inj h1)
          · exact h1 hlc
        | some lc =>
          rw [processGroup_flip t rows p r0 lc hh hv hlc]
          unfold SafeNow
          right; right
          rw [groupRows_map_flip, lcOf_map_flip, hlc]
          simp
  · exact SafeNow_of_groupRows_eq t rows _ p
      (groupRows_processGroup_other t rows g p hpg) hs

theorem processGroup_count (t : String) (rows : List PRow) (g p : String)
    (hs : SafeNow t rows g) :
    (groupRows (processGroup t rows g) p).length = (groupRows rows p).length := by
  by_cases hpg : p = g
  · subst hpg
    cases hh : (groupRows rows p).head? with
    | none => rw [processGroup_empty t rows p hh]
    | some r0 =>
      by_cases hv : r0.v_ref = t
      · rw [processGroup_done t rows p r0 hh hv]
      · cases hlc : lcOf (groupRows rows p) with
        | none =>
          exfalso
          rcases hs with h1 | h1 | h1
          · rw [hh] at h1; exact Option.noConfusion h1
          · rw [hh] at h1
            exact hv (Option.some.inj h1)
          · exact h1 hlc
        | some lc =>
          rw [processGroup_flip t rows p r0 lc hh hv hlc]
          rw [groupRows_map_flip, List.length_map]
  · rw [groupRows_processGroup_other t rows g p hpg]
theorem mem_uniqueAux (a : String) :
    ∀ (l : List String) (seen : List String),
      a ∈ uniqueAux seen l ↔ (a ∈ l ∧ ¬ a ∈ seen) := by
  intro l
  induction l with
  | nil => intro seen; simp [uniqueAux]
  | cons x xs ih =>
    intro seen
    rw [uniqueAux]
    by_cases hx : x ∈ seen
    · rw [if_pos hx, ih]
      constructor
      · rintro ⟨h1, h2⟩; exact ⟨by simp [h1], h2⟩
      · rintro ⟨h1, h2⟩
        rcases List.mem_cons.mp h1 with rfl | h3
        · exact absurd hx h2
        · exact ⟨h3, h2⟩
    · rw [if_neg hx]
      constructor
      · intro h
        rcases List.mem_cons.mp h with rfl | h2
        · exact ⟨by simp, hx⟩
        · rw [ih] at h2
          refine ⟨by simp [h2.1], fun ha => h2.2 (by simp [ha])⟩
      · rintro ⟨h1, h2⟩
        rcases List.mem_cons.mp h1 with rfl | h3
        · simp
        · by_cases hax : a = x
          · subst hax; simp
          · apply List.mem_cons_of_mem
            rw [ih]
            refine ⟨h3, fun hc => ?_⟩
            rcases List.mem_cons.mp hc with h4 | h5
            · exact hax h4
            · exact h2 h5

theorem mem_uniqueStrs (a : String) (l : List String) :
    a ∈ uniqueStrs l ↔ a ∈ l := by
  rw [uniqueStrs, mem_uniqueAux]
  simp

theorem fold_keep (t p : String) :
    ∀ (gs : List String) (state : List PRow),
      SafeNow t state p →
      SafeNow t (gs.foldl (processGroup t) state) p ∧
      (groupRows (gs.foldl (processGroup t) state) p).length =
        (groupRows state p).length := by
  intro gs
  induction gs with
  | nil => intro st hs; exact ⟨hs, rfl⟩
  | cons h rest ih =>
    intro st hs
    rw [List.foldl_cons]
    by_cases hph : p = h
    · subst hph
      obtain ⟨hs3, hc3⟩ := ih (processGroup t st p) (processGroup_safe t st p p hs)
      exact ⟨hs3, by rw [hc3, processGroup_count t st p p hs]⟩
    · have hgr := groupRows_processGroup_other t st h p hph
      obtain ⟨hs3, hc3⟩ := ih (processGroup t st h)
        (SafeNow_of_groupRows_eq t st _ p hgr hs)
      exact ⟨hs3, by rw [hc3, hgr]⟩

theorem fold_stays_deleted (t g : String) :
    ∀ (gs : List String) (state : List PRow),
      groupRows state g = [] →
      groupRows (gs.foldl (processGroup t) state) g = [] := by
  intro gs
  induction gs with
  | nil => intro st h; exact h
  | cons h rest ih =>
    intro st hempty
    rw [List.foldl_cons]
    by_cases hgh : h = g
    · subst hgh
      rw [processGroup_empty t st h (by rw [hempty]; rfl)]
      exact ih st hempty
    · have hgr := groupRows_processGroup_other t st h g (fun he => hgh (he.symm))
      exact ih _ (by rw [hgr]; exact hempty)

theorem groupRows_self_filter (rows : List PRow) (g : String) :
    groupRows (rows.filter (fun r => ¬ r.var = g)) g = [] := by
  rw [groupRows, List.filter_filter, List.filter_eq_nil_iff]
  intro r _
  simp

theorem fold_deletes (t g : String) (r0 : PRow) :
    ∀ (gs : List String) (state : List PRow),
      g ∈ gs →
      (groupRows state g).head? = some r0 → ¬ r0.v_ref = t →
      lcOf (groupRows state g) = none →
      groupRows (gs.foldl (processGroup t) state) g = [] := by
  intro gs
  induction gs with
  | nil => intro st h; simp at h
  | cons h rest ih =>
    intro st hmem hhead hv hlc
    rw [List.foldl_cons]
    by_cases hgh : h = g
    · subst hgh
      rw [processGroup_del t st h r0 hhead hv hlc]
      exact fold_stays_deleted t h rest _ (groupRows_self_filter st h)
    · rcases List.mem_cons.mp hmem with rfl | hmem2
      · exact absurd rfl (fun he => hgh he.symm)
      · have hgr := groupRows_processGroup_other t st h g (fun he => hgh he.symm)
        exact ih (processGroup t st h) hmem2 (by rw [hgr]; exact hhead) hv
          (by rw [hgr]; exact hlc)
/-- C5: when `set_profile_orientation` must reorient a variable group (its
reference differs from the target) but neither a non-NaN `ice_thickness` nor
a non-NaN `length` is available for it, every row of that group is removed
from the returned profile, while rows of every other group (none of which
triggers its own deletion) are kept. -/
theorem C5_missing_length_deletes_group (rows : List PRow) (t g : String) (r0 : PRow)
    (hhead : (groupRows rows g).head? = some r0)
    (hv : ¬ r0.v_ref = t)
    (hlc : lcOf (groupRows rows g) = none)
    (hsafe : ∀ p, ¬ p = g → SafeNow t rows p) :
    groupRows (set_profile_orientation rows t) g = [] ∧
    ∀ p, ¬ p = g →
      (groupRows (set_profile_orientation rows t) p).length =
        (groupRows rows p).length := by
  constructor
  · rw [set_profile_orientation]
    refine fold_deletes t g r0 _ rows ?_ hhead hv hlc
    rw [mem_uniqueStrs]
    have hr0 : r0 ∈ groupRows rows g := by
      cases hfil : groupRows rows g with
      | nil => rw [hfil] at hhead; exact Option.noConfusion hhead
      | cons a l =>
        rw [hfil] at hhead
        have ha : a = r0 := by simpa using hhead
        rw [← ha]
        simp
    have hmem := List.mem_filter.mp hr0
    have hvar : r0.var = g := by simpa using hmem.2
    rw [← hvar]
    exact List.mem_map_of_mem PRow.var hmem.1
  · intro p hp
    rw [set_profile_orientation]
    exact (fold_keep t p _ rows (hsafe p hp)).2

/-- Witness for C5 at a two-group profile with one unreorientable group. -/
theorem C5_witness :
    groupRows (set_profile_orientation
      [⟨"salinity", "top", some 1, some 2, some 3, none, none⟩,
       ⟨"temperature", "bottom", some 1, some 2, some 3, none, some 10⟩] "bottom")
      "salinity" = [] ∧
    (groupRows (set_profile_orientation
      [⟨"salinity", "top", some 1, some 2, some 3, none, none⟩,
       ⟨"temperature", "bottom", some 1, some 2, some 3, none, some 10⟩] "bottom")
      "temperature").length =
    (groupRows
      [⟨"salinity", "top", some 1, some 2, some 3, none, none⟩,
       ⟨"temperature", "bottom", some 1, some 2, some 3, none, some 10⟩]
      "temperature").length := by
  have hmain := C5_missing_length_deletes_group
    [⟨"salinity", "top", some 1, some 2, some 3, none, none⟩,
     ⟨"temperature", "bottom", some 1, some 2, some 3, none, some 10⟩]
    "bottom" "salinity" ⟨"salinity", "top", some 1, some 2, some 3, none, none⟩
    (by decide) (by decide) (by decide)
    (by
      intro p hp
      by_cases hpt : p = "temperature"
      · subst hpt
        unfold SafeNow
        right; left
        decide
      · unfold SafeNow
        left
        have h1 : ¬ ("salinity" : String) = p := fun he => hp he.symm
        have h2 : ¬ ("temperature" : String) = p := fun he => hpt he.symm
        simp [groupRows, List.filter_cons, h1, h2])
  exact ⟨hmain.1, hmain.2 "temperature" (by decide)⟩

end SeaIce
